import Mathlib

/-!
Shallow embedding of `src/app.py` (Legal Doc Analyzer).

Python strings are modelled as Lean `String` (a structure holding a
`List Char`); `str.strip()`, `str.lower()`, `str.split(",")` and slicing
are modelled by explicit list operations below.  JSON values returned by
`json.loads` are modelled by the inductive `Json`; Python exceptions that
can escape the analysed functions are modelled by `PyError` and
`Except PyError`.
-/

namespace LegalDocAnalyzer

/-- Model of Python `str.strip()` on the character list: drop leading and
trailing whitespace. -/
def stripChars (l : List Char) : List Char :=
  ((l.dropWhile Char.isWhitespace).reverse.dropWhile Char.isWhitespace).reverse

/-- Model of Python `str.strip()`. -/
def pyStrip (s : String) : String := ⟨stripChars s.data⟩

/-- Model of Python `str.lower()`. -/
def pyLower (s : String) : String := ⟨s.data.map Char.toLower⟩

/-- The constant `MAX_CHARS = 30_000` from app.py line 31. -/
def MAX_CHARS : Nat := 30000

/-- Tail of the regex alternative `party\s*[ab12]` after the literal
`party`: zero or more whitespace characters followed by exactly one of
`a`, `b`, `1`, `2` (the input is already lower-cased). -/
def placeholderTail : List Char → Bool
  | [] => false
  | [c] => c == 'a' || c == 'b' || c == '1' || c == '2'
  | c :: rest => c.isWhitespace && placeholderTail rest

/-- Model of `PLACEHOLDER_RE.fullmatch(s)` being a match, for
`PLACEHOLDER_RE = re.compile(r"party\s*[ab12]|plaintiff|defendant",
re.IGNORECASE)` (app.py line 66): the whole string must equal one of the
three alternatives, case-insensitively. -/
def isPlaceholderMatch (s : String) : Bool :=
  let t := (pyLower s).data
  t == "plaintiff".data || t == "defendant".data ||
    ("party".data.isPrefixOf t && placeholderTail (t.drop 5))

/-- The loop of `_clean_parties` (app.py lines 69-81), with the `seen`
set carried as a list of lower-cased keys. -/
def cleanGo : List String → List String → List String
  | [], _ => []
  | p :: rest, seen =>
    if p = "" then cleanGo rest seen
    else if isPlaceholderMatch (pyStrip p) then cleanGo rest seen
    else if seen.contains (pyLower (pyStrip p)) then cleanGo rest seen
    else pyStrip p :: cleanGo rest (pyLower (pyStrip p) :: seen)

/-- Function `_clean_parties` (app.py lines 69-81) on a list that is
actually all strings, as its type hint promises. -/
def cleanParties (raw : List String) : List String := cleanGo raw []

/-- Sanity examples (spec end-to-end scenarios). -/
example : cleanParties ["Acme Corp", "Globex Inc."] = ["Acme Corp", "Globex Inc."] := by decide

example : cleanParties ["Party A", "Party B"] = [] := by decide

example : cleanParties ["Acme Corp", "ACME CORP"] = ["Acme Corp"] := by decide

example : cleanParties ["  "] = [""] := by decide

example : cleanParties [""] = [] := by decide

example : cleanParties ["Party Planning Co."] = ["Party Planning Co."] := by decide

/-! ## JSON values and the detection call -/

/-- Values produced by Python `json.loads`. -/
inductive Json where
  | null : Json
  | bool : Bool → Json
  | num : Int → Json
  | str : String → Json
  | arr : List Json → Json
  | obj : List (String × Json) → Json

/-- Python exceptions that can escape the modelled code. -/
inductive PyError where
  | attributeError : PyError
  | typeError : PyError
deriving DecidableEq, Repr

/-- Python truthiness of a JSON-derived value (`if not p`). -/
def jsonTruthy : Json → Bool
  | .null => false
  | .bool b => b
  | .num n => n != 0
  | .str s => s != ""
  | .arr xs => !xs.isEmpty
  | .obj kvs => !kvs.isEmpty

/-- Python `dict.get(k, dflt)` on the dictionary `json.loads` built from `kvs`
(later duplicate keys overwrite earlier ones). -/
def dictGet (kvs : List (String × Json)) (k : String) (dflt : Json) : Json :=
  match kvs.reverse.find? (fun kv => kv.1 == k) with
  | some kv => kv.2
  | none => dflt

/-- Behaviour of `_clean_parties` as Python actually runs it when its argument holds
arbitrary JSON-derived values: falsy elements are skipped by `if not p`,
and a truthy non-string element raises `AttributeError` at `p.strip()`. -/
def cleanPyGo : List Json → List String → Except PyError (List String)
  | [], _ => .ok []
  | p :: rest, seen =>
    if !jsonTruthy p then cleanPyGo rest seen
    else
      match p with
      | .str s =>
        if isPlaceholderMatch (pyStrip s) then cleanPyGo rest seen
        else if seen.contains (pyLower (pyStrip s)) then cleanPyGo rest seen
        else (cleanPyGo rest (pyLower (pyStrip s) :: seen)).map (pyStrip s :: ·)
      | _ => .error .attributeError

/-- Call `_clean_parties(plist)` for a dynamically typed `plist`. -/
def cleanPartiesPy (raw : List Json) : Except PyError (List String) :=
  cleanPyGo raw []

instance instDecEqExcept {ε α : Type} [DecidableEq ε] [DecidableEq α] :
    DecidableEq (Except ε α) := fun a b =>
  match a, b with
  | .ok x, .ok y =>
    if h : x = y then isTrue (by rw [h])
    else isFalse (fun hc => h (Except.ok.inj hc))
  | .error x, .error y =>
    if h : x = y then isTrue (by rw [h])
    else isFalse (fun hc => h (Except.error.inj hc))
  | .ok _, .error _ => isFalse (fun hc => Except.noConfusion hc)
  | .error _, .ok _ => isFalse (fun hc => Except.noConfusion hc)

/-- The body of `detect_parties.ask` (app.py lines 93-99) after the
`chat` call, as a function of the outcome of `json.loads(raw)`:
* `json.loads` raising `JSONDecodeError` is caught, giving `plist = []`;
* on a JSON object, `.get("parties", [])` selects the value and
  `_clean_parties` iterates it (a string yields its one-character
  substrings, a dict yields its keys, other non-lists raise `TypeError`);
* on any non-object JSON value, `.get` raises `AttributeError`, which the
  `except json.JSONDecodeError` clause does not catch. -/
def ask (parsed : Except Unit Json) : Except PyError (List String) :=
  match parsed with
  | .error _ => .ok (cleanParties [])
  | .ok j =>
    match j with
    | .obj kvs =>
      match dictGet kvs "parties" (.arr []) with
      | .arr xs => cleanPartiesPy xs
      | .str s => cleanPartiesPy (s.data.map (fun c => .str ⟨[c]⟩))
      | .obj kvs2 => cleanPartiesPy (kvs2.map (fun kv => .str kv.1))
      | _ => .error .typeError
    | _ => .error .attributeError

/-- Function `detect_parties` (app.py lines 84-105); `parsed n` is the outcome of
`json.loads` on the `n`-th chat response of this detection call.  The
second component counts the remote (chat) requests issued. -/
def detectParties (parsed : Nat → Except Unit Json) :
    Except PyError (List String) × Nat :=
  match ask (parsed 0) with
  | .error e => (.error e, 1)
  | .ok parties =>
    if parties.length < 2 then (ask (parsed 1), 2) else (.ok parties, 1)

example : ask (.ok (.obj [("parties", .arr [.str "Acme Corp", .str "Globex Inc."])]))
    = .ok ["Acme Corp", "Globex Inc."] := by decide

example : ask (.error ()) = .ok [] := by decide

example : ask (.ok (.arr [])) = .error .attributeError := by decide

example : detectParties (fun _ => .ok (.obj [("parties", .arr [])])) = (.ok [], 2) := by decide

/-! ## `load_text` (app.py lines 37-48) -/

/-- An uploaded file: its name and raw byte content. -/
structure Upload where
  name : String
  data : List Nat

/-- Model of Python `str.endswith(t)`. -/
def pyEndsWith (s t : String) : Bool := t.data.isSuffixOf s.data

/-- Is `b` a UTF-8 continuation byte (`0x80..0xBF`)? -/
def isContByte (b : Nat) : Bool := 0x80 ≤ b && b ≤ 0xBF

/-- Allowed range of the second byte of a multi-byte UTF-8 sequence whose
first byte is `b` (the restricted ranges exclude overlong forms,
surrogates and code points above `0x10FFFF`). -/
def secondByteOk (b c : Nat) : Bool :=
  if b == 0xE0 then 0xA0 ≤ c && c ≤ 0xBF
  else if b == 0xED then 0x80 ≤ c && c ≤ 0x9F
  else if b == 0xF0 then 0x90 ≤ c && c ≤ 0xBF
  else if b == 0xF4 then 0x80 ≤ c && c ≤ 0x8F
  else isContByte c

/-- One step of UTF-8 decoding at first byte `b` with remaining bytes
`rest`: the number of bytes consumed (at least 1) and the decoded
character, or `none` when the consumed bytes form an invalid (maximal
ill-formed) subsequence, which `errors="ignore"` silently drops. -/
def utf8Step (b : Nat) (rest : List Nat) : Nat × Option Char :=
  if b < 0x80 then (1, some (Char.ofNat b))
  else if 0xC2 ≤ b && b ≤ 0xDF then
    match rest with
    | c1 :: _ =>
      if isContByte c1 then (2, some (Char.ofNat ((b - 0xC0) * 64 + (c1 - 0x80))))
      else (1, none)
    | [] => (1, none)
  else if 0xE0 ≤ b && b ≤ 0xEF then
    match rest with
    | c1 :: c2 :: _ =>
      if secondByteOk b c1 then
        if isContByte c2 then
          (3, some (Char.ofNat ((b - 0xE0) * 4096 + (c1 - 0x80) * 64 + (c2 - 0x80))))
        else (2, none)
      else (1, none)
    | [c1] => if secondByteOk b c1 then (2, none) else (1, none)
    | [] => (1, none)
  else if 0xF0 ≤ b && b ≤ 0xF4 then
    match rest with
    | c1 :: c2 :: c3 :: _ =>
      if secondByteOk b c1 then
        if isContByte c2 then
          if isContByte c3 then
            (4, some (Char.ofNat
              ((b - 0xF0) * 262144 + (c1 - 0x80) * 4096 + (c2 - 0x80) * 64 + (c3 - 0x80))))
          else (3, none)
        else (2, none)
      else (1, none)
    | [c1, c2] =>
      if secondByteOk b c1 then (if isContByte c2 then (3, none) else (2, none))
      else (1, none)
    | [c1] => if secondByteOk b c1 then (2, none) else (1, none)
    | [] => (1, none)
  else (1, none)

/-- The decoding loop, with a fuel argument for structural recursion;
each step consumes at least one byte, so `fuel = length of the input`
always suffices. -/
def utf8DecodeIgnoreAux : Nat → List Nat → List Char
  | 0, _ => []
  | _ + 1, [] => []
  | fuel + 1, b :: rest =>
    match utf8Step b rest with
    | (k, some c) => c :: utf8DecodeIgnoreAux fuel (rest.drop (k - 1))
    | (k, none) => utf8DecodeIgnoreAux fuel (rest.drop (k - 1))

/-- Model of Python `bytes.decode("utf-8", errors="ignore")`: decode
valid sequences, silently drop ill-formed ones, never fail. -/
def utf8DecodeIgnore (l : List Nat) : List Char :=
  utf8DecodeIgnoreAux l.length l

/-- The local `text` of `load_text` before truncation.  PDF and DOCX
extraction are performed by the external libraries PyPDF2 and python-docx,
modelled as the parameters `pdfExtract` and `docxExtract`; every other
file name takes the `data.decode("utf-8", errors="ignore")` branch. -/
def extractedText (pdfExtract docxExtract : List Nat → String) (u : Upload) : String :=
  if pyEndsWith (pyLower u.name) ".pdf" then pdfExtract u.data
  else if pyEndsWith (pyLower u.name) ".docx" then docxExtract u.data
  else ⟨utf8DecodeIgnore u.data⟩

/-- Function `load_text` (app.py lines 37-48): extract, then `text[:MAX_CHARS]`. -/
def load_text (pdfExtract docxExtract : List Nat → String) (u : Upload) : String :=
  ⟨(extractedText pdfExtract docxExtract u).data.take MAX_CHARS⟩

example : utf8DecodeIgnore [104, 105] = ['h', 'i'] := by decide

example : utf8DecodeIgnore [255, 65] = ['A'] := by decide

example : utf8DecodeIgnore [0xC3, 0xA9] = ['é'] := by decide

/-! ## Chat wrapper and analysis (app.py lines 54-60 and 111-124) -/

/-- Function `chat` (app.py lines 54-60): one remote request; the response content
is returned with surrounding whitespace stripped.  `api` maps a prompt to
the remote model's raw message content. -/
def chat (api : String → String) (prompt : String) : String :=
  pyStrip (api prompt)

/-- The f-string prompt of `analyze_for_party` (app.py lines 112-123). -/
def analysisPrompt (party text : String) : String :=
  "\nYou are legal counsel for **" ++ party ++
  "**. Analyze the agreement below and respond in clear, plain English.\n\n" ++
  "Structure your answer:\n## Executive Summary (≤3 sentences)\n" ++
  "## My Key Obligations & Responsibilities (bullets)\n" ++
  "## Key Risks & Red Flags (bullets + why they matter)\n" ++
  "## Key Benefits & Protections (bullets)\n" ++
  "## Jargon Buster (explain 3–5 key terms)\n" ++
  "## Questions to Ask (3–5)\n---\n" ++ text ++ "\n"

/-- Function `analyze_for_party` (app.py lines 111-124): a single `chat` call whose
result is returned as-is.  The second component counts remote requests. -/
def analyze_for_party (api : String → String) (party text : String) : String × Nat :=
  (chat api (analysisPrompt party text), 1)

/-! ## Manual party entry (app.py lines 157-163) -/

/-- Model of Python `manual.split(",")`. -/
def splitOnComma (s : String) : List String :=
  (s.data.splitOn ',').map fun l => ⟨l⟩

/-- The comprehension `[p.strip() for p in manual.split(",") if p.strip()]`
(app.py line 160). -/
def manualParse (manual : String) : List String :=
  ((splitOnComma manual).map pyStrip).filter (fun p => p ≠ "")

/-- The stage-1 manual-entry update of `st.session_state.parties`
(app.py lines 160-162): the parsed list replaces the session value only
when it has at least two entries. -/
def manualEntryUpdate (manual : String) (parties : List String) : List String :=
  let partyList := manualParse manual
  if 2 ≤ partyList.length then partyList else parties

example : manualParse "Company A, Company B" = ["Company A", "Company B"] := by decide

example : manualParse " , ,x" = ["x"] := by decide

example : manualEntryUpdate "Party A, Party A" [] = ["Party A", "Party A"] := by decide

/-! ## Lemmas about stripping -/

theorem dropWhile_dropWhile (p : α → Bool) (l : List α) :
    (l.dropWhile p).dropWhile p = l.dropWhile p := by
  cases h : l.dropWhile p with
  | nil => simp
  | cons x t =>
    have hx := List.head?_dropWhile_not p l
    rw [h] at hx
    simp only [List.head?_cons] at hx
    rw [List.dropWhile_cons_of_neg (by simp [hx])]

theorem stripChars_head_not_white (l : List Char) {y : Char} {t : List Char}
    (h : stripChars l = y :: t) : y.isWhitespace = false := by
  have hsplit := congrArg List.reverse
    (List.takeWhile_append_dropWhile Char.isWhitespace
      (l.dropWhile Char.isWhitespace).reverse)
  rw [List.reverse_append, List.reverse_reverse] at hsplit
  have hs : (List.dropWhile Char.isWhitespace
      (l.dropWhile Char.isWhitespace).reverse).reverse = y :: t := h
  rw [hs] at hsplit
  have hx := List.head?_dropWhile_not Char.isWhitespace l
  rw [← hsplit] at hx
  simpa using hx

theorem stripChars_idem (l : List Char) : stripChars (stripChars l) = stripChars l := by
  have key : (stripChars l).dropWhile Char.isWhitespace = stripChars l := by
    cases h : stripChars l with
    | nil => simp
    | cons y t =>
      have hy := stripChars_head_not_white l h
      rw [List.dropWhile_cons_of_neg (by simp [hy])]
  have key2 : (stripChars l).reverse.dropWhile Char.isWhitespace = (stripChars l).reverse := by
    show ((((l.dropWhile Char.isWhitespace).reverse.dropWhile
          Char.isWhitespace).reverse).reverse).dropWhile Char.isWhitespace =
        (((l.dropWhile Char.isWhitespace).reverse.dropWhile
          Char.isWhitespace).reverse).reverse
    rw [List.reverse_reverse]
    exact dropWhile_dropWhile _ _
  show (((stripChars l).dropWhile Char.isWhitespace).reverse.dropWhile
      Char.isWhitespace).reverse = stripChars l
  rw [key, key2, List.reverse_reverse]

theorem pyStrip_idem (s : String) : pyStrip (pyStrip s) = pyStrip s := by
  show String.mk (stripChars (stripChars s.data)) = String.mk (stripChars s.data)
  rw [stripChars_idem]

/-! ## Lemmas about the `_clean_parties` loop -/

theorem mem_cleanGo {raw seen : List String} {s : String} (h : s ∈ cleanGo raw seen) :
    ∃ p ∈ raw, p ≠ "" ∧ isPlaceholderMatch (pyStrip p) = false ∧ s = pyStrip p := by
  induction raw generalizing seen with
  | nil => simp [cleanGo] at h
  | cons p rest ih =>
    simp only [cleanGo] at h
    by_cases h1 : p = ""
    · rw [if_pos h1] at h
      obtain ⟨q, hq, hp⟩ := ih h
      exact ⟨q, .tail _ hq, hp⟩
    rw [if_neg h1] at h
    by_cases h2 : isPlaceholderMatch (pyStrip p) = true
    · rw [if_pos h2] at h
      obtain ⟨q, hq, hp⟩ := ih h
      exact ⟨q, .tail _ hq, hp⟩
    rw [if_neg h2] at h
    by_cases h3 : seen.contains (pyLower (pyStrip p)) = true
    · rw [if_pos h3] at h
      obtain ⟨q, hq, hp⟩ := ih h
      exact ⟨q, .tail _ hq, hp⟩
    rw [if_neg h3] at h
    rcases List.mem_cons.mp h with hs | hs
    · exact ⟨p, .head _, h1, by simpa using h2, hs⟩
    · obtain ⟨q, hq, hp⟩ := ih hs
      exact ⟨q, .tail _ hq, hp⟩

theorem cleanGo_key_not_mem_seen {raw seen : List String} {s : String}
    (h : s ∈ cleanGo raw seen) : seen.contains (pyLower s) = false := by
  induction raw generalizing seen with
  | nil => simp [cleanGo] at h
  | cons p rest ih =>
    simp only [cleanGo] at h
    by_cases h1 : p = ""
    · rw [if_pos h1] at h
      exact ih h
    rw [if_neg h1] at h
    by_cases h2 : isPlaceholderMatch (pyStrip p) = true
    · rw [if_pos h2] at h
      exact ih h
    rw [if_neg h2] at h
    by_cases h3 : seen.contains (pyLower (pyStrip p)) = true
    · rw [if_pos h3] at h
      exact ih h
    rw [if_neg h3] at h
    rcases List.mem_cons.mp h with hs | hs
    · rw [hs]
      exact Bool.eq_false_iff.mpr h3
    · have := ih hs
      rw [List.contains_cons] at this
      exact (Bool.or_eq_false_iff.mp this).2

theorem cleanGo_keys_nodup (raw : List String) : ∀ seen,
    ((cleanGo raw seen).map pyLower).Nodup := by
  induction raw with
  | nil => intro seen; simp [cleanGo]
  | cons p rest ih =>
    intro seen
    simp only [cleanGo]
    by_cases h1 : p = ""
    · rw [if_pos h1]; exact ih seen
    rw [if_neg h1]
    by_cases h2 : isPlaceholderMatch (pyStrip p) = true
    · rw [if_pos h2]; exact ih seen
    rw [if_neg h2]
    by_cases h3 : seen.contains (pyLower (pyStrip p)) = true
    · rw [if_pos h3]; exact ih seen
    rw [if_neg h3]
    rw [List.map_cons, List.nodup_cons]
    refine ⟨?_, ih _⟩
    intro hmem
    obtain ⟨s, hs, hkey⟩ := List.mem_map.mp hmem
    have hns := cleanGo_key_not_mem_seen hs
    rw [List.contains_cons, hkey] at hns
    simp at hns

theorem cleanGo_sublist (raw : List String) : ∀ seen,
    List.Sublist (cleanGo raw seen) (raw.map pyStrip) := by
  induction raw with
  | nil => intro seen; simp [cleanGo]
  | cons p rest ih =>
    intro seen
    simp only [cleanGo, List.map_cons]
    by_cases h1 : p = ""
    · rw [if_pos h1]; exact (ih seen).cons _
    rw [if_neg h1]
    by_cases h2 : isPlaceholderMatch (pyStrip p) = true
    · rw [if_pos h2]; exact (ih seen).cons _
    rw [if_neg h2]
    by_cases h3 : seen.contains (pyLower (pyStrip p)) = true
    · rw [if_pos h3]; exact (ih seen).cons _
    rw [if_neg h3]
    exact (ih _).cons₂ _

theorem find?_cons_false {α : Type} (pred : α → Bool) (a : α) (l : List α)
    (h : pred a = false) : (a :: l).find? pred = l.find? pred := by
  simp [List.find?_cons, h]

theorem find?_cons_true {α : Type} (pred : α → Bool) (a : α) (l : List α)
    (h : pred a = true) : (a :: l).find? pred = some a := by
  simp [List.find?_cons, h]

theorem cleanGo_first {raw seen : List String} {s : String}
    (h : s ∈ cleanGo raw seen) :
    ∃ p, raw.find? (fun q => !(q == "") && !(isPlaceholderMatch (pyStrip q)) &&
        (pyLower (pyStrip q) == pyLower s)) = some p ∧ s = pyStrip p := by
  induction raw generalizing seen with
  | nil => simp [cleanGo] at h
  | cons p rest ih =>
    simp only [cleanGo] at h
    by_cases h1 : p = ""
    · rw [if_pos h1] at h
      obtain ⟨q, hfind, hq⟩ := ih h
      refine ⟨q, ?_, hq⟩
      rw [find?_cons_false (fun q => !(q == "") && !(isPlaceholderMatch (pyStrip q)) &&
        (pyLower (pyStrip q) == pyLower s)) p rest (by simp [h1])]
      exact hfind
    rw [if_neg h1] at h
    by_cases h2 : isPlaceholderMatch (pyStrip p) = true
    · rw [if_pos h2] at h
      obtain ⟨q, hfind, hq⟩ := ih h
      refine ⟨q, ?_, hq⟩
      rw [find?_cons_false (fun q => !(q == "") && !(isPlaceholderMatch (pyStrip q)) &&
        (pyLower (pyStrip q) == pyLower s)) p rest (by simp [h2])]
      exact hfind
    rw [if_neg h2] at h
    by_cases h3 : seen.contains (pyLower (pyStrip p)) = true
    · rw [if_pos h3] at h
      obtain ⟨q, hfind, hq⟩ := ih h
      have hns := cleanGo_key_not_mem_seen h
      refine ⟨q, ?_, hq⟩
      have hpf : (!(p == "") && !(isPlaceholderMatch (pyStrip p)) &&
          (pyLower (pyStrip p) == pyLower s)) = false := by
        rcases hkey : (pyLower (pyStrip p) == pyLower s) with hf | ht
        · simp
        · rw [beq_iff_eq.mp hkey] at h3
          rw [h3] at hns
          cases hns
      rw [find?_cons_false (fun q => !(q == "") && !(isPlaceholderMatch (pyStrip q)) &&
        (pyLower (pyStrip q) == pyLower s)) p rest hpf]
      exact hfind
    rw [if_neg h3] at h
    rcases List.mem_cons.mp h with hs | hs
    · refine ⟨p, ?_, hs⟩
      rw [find?_cons_true (fun q => !(q == "") && !(isPlaceholderMatch (pyStrip q)) &&
        (pyLower (pyStrip q) == pyLower s)) p rest (by simp [h1, h2, hs])]
    · obtain ⟨q, hfind, hq⟩ := ih hs
      have hns := cleanGo_key_not_mem_seen hs
      rw [List.contains_cons] at hns
      refine ⟨q, ?_, hq⟩
      have hpf : (!(p == "") && !(isPlaceholderMatch (pyStrip p)) &&
          (pyLower (pyStrip p) == pyLower s)) = false := by
        rcases hkey : (pyLower (pyStrip p) == pyLower s) with hf | ht
        · simp
        · rw [beq_iff_eq.mp hkey] at hns
          simp at hns
      rw [find?_cons_false (fun q => !(q == "") && !(isPlaceholderMatch (pyStrip q)) &&
        (pyLower (pyStrip q) == pyLower s)) p rest hpf]
      exact hfind

theorem cleanGo_key_mem {raw : List String} {p : String} (hp : p ∈ raw)
    (hne : p ≠ "") (hpl : isPlaceholderMatch (pyStrip p) = false) : ∀ seen,
    seen.contains (pyLower (pyStrip p)) = true ∨
      pyLower (pyStrip p) ∈ (cleanGo raw seen).map pyLower := by
  induction raw with
  | nil => cases hp
  | cons q rest ih =>
    intro seen
    simp only [cleanGo]
    rcases List.mem_cons.mp hp with hpq | hpr
    · subst hpq
      rw [if_neg hne, if_neg (by simp [hpl])]
      by_cases h3 : seen.contains (pyLower (pyStrip p)) = true
      · exact .inl h3
      · rw [if_neg h3]
        right
        rw [List.map_cons]
        exact .head _
    · by_cases hq1 : q = ""
      · rw [if_pos hq1]; exact ih hpr seen
      rw [if_neg hq1]
      by_cases hq2 : isPlaceholderMatch (pyStrip q) = true
      · rw [if_pos hq2]; exact ih hpr seen
      rw [if_neg hq2]
      by_cases hq3 : seen.contains (pyLower (pyStrip q)) = true
      · rw [if_pos hq3]; exact ih hpr seen
      rw [if_neg hq3]
      rcases ih hpr (pyLower (pyStrip q) :: seen) with hc | hm
      · rw [List.contains_cons] at hc
        rcases Bool.or_eq_true_iff.mp hc with hc | hc
        · right
          rw [List.map_cons, beq_iff_eq.mp hc]
          exact .head _
        · exact .inl hc
      · right
        rw [List.map_cons]
        exact .tail _ hm

theorem cleanGo_fixed {l : List String} : ∀ seen,
    (∀ e ∈ l, e ≠ "" ∧ pyStrip e = e ∧ isPlaceholderMatch e = false ∧
      seen.contains (pyLower e) = false) →
    (l.map pyLower).Nodup → cleanGo l seen = l := by
  induction l with
  | nil => intro seen _ _; rfl
  | cons e rest ih =>
    intro seen hl hn
    obtain ⟨he1, he2, he3, he4⟩ := hl e (.head _)
    simp only [cleanGo]
    rw [if_neg he1, he2, if_neg (by simp [he3]),
      if_neg (by rw [he4]; exact Bool.false_ne_true)]
    rw [List.map_cons, List.nodup_cons] at hn
    congr 1
    refine ih _ (fun e' he' => ?_) hn.2
    obtain ⟨a1, a2, a3, a4⟩ := hl e' (.tail _ he')
    refine ⟨a1, a2, a3, ?_⟩
    rw [List.contains_cons]
    have hne' : (pyLower e' == pyLower e) = false := by
      rw [beq_eq_false_iff_ne]
      intro hcontra
      exact hn.1 (hcontra ▸ List.mem_map_of_mem pyLower he')
    rw [hne', a4]
    rfl

/-! ## Claim theorems -/

/-- Claim C1 (code bug): the spec requires every detection response that is
not parseable as the expected JSON object shape to yield an empty party
list without propagating an exception, but `ask` only catches
`json.JSONDecodeError`; a response that is valid JSON yet not an object
(for example the JSON text `[]` or a bare JSON string) makes
`json.loads(raw).get("parties", [])` raise an uncaught `AttributeError`.
Only the invalid-JSON case is handled as the spec demands. -/
theorem c1_nonobject_json_uncaught :
    ask (.ok (.arr [])) = .error .attributeError ∧
    ask (.ok (.str "not an object")) = .error .attributeError ∧
    ask (.error ()) = .ok [] := by decide

/-- Claim C2, counterexample: `_clean_parties` is not idempotent.  A
whitespace-only entry survives the `if not p` test, is trimmed to the
empty string and emitted; a second application then drops that empty
string, so the output changes. -/
theorem c2_counterexample_whitespace_only :
    cleanParties ["  "] = [""] ∧
    cleanParties (cleanParties ["  "]) = [] ∧
    cleanParties (cleanParties ["  "]) ≠ cleanParties ["  "] := by decide

/-- Claim C2, amended: `_clean_parties` is idempotent on every input
sequence that contains no whitespace-only entry (every entry is either
empty, which is dropped, or has a non-empty trim). -/
theorem c2_idempotent_without_whitespace_only (raw : List String)
    (hws : ∀ p ∈ raw, p ≠ "" → pyStrip p ≠ "") :
    cleanParties (cleanParties raw) = cleanParties raw := by
  refine cleanGo_fixed [] (fun e he => ?_) (cleanGo_keys_nodup raw [])
  obtain ⟨p, hp, hne, hpl, hep⟩ := mem_cleanGo he
  subst hep
  exact ⟨hws p hp hne, pyStrip_idem p, hpl, rfl⟩

/-- Witness for the amended C2 at a concrete input. -/
theorem c2_idempotent_witness :
    cleanParties (cleanParties ["Acme Corp", "Globex Inc."]) =
      cleanParties ["Acme Corp", "Globex Inc."] :=
  c2_idempotent_without_whitespace_only ["Acme Corp", "Globex Inc."] (by decide)

/-- Claim C3, counterexample: the output of `_clean_parties` can contain
an empty entry.  On input `[" "]` the whitespace-only entry is truthy,
matches no placeholder, and is appended as its trim, the empty string. -/
theorem c3_counterexample_empty_entry :
    "" ∈ cleanParties [" "] ∧ ¬ (∀ s ∈ cleanParties [" "], s ≠ "") := by decide

/-- Claim C3, amended: every entry of the output of `_clean_parties` is
fully trimmed (it equals its own trim) and is the trim of some non-empty
input entry; literally empty input entries are removed, but a
whitespace-only input entry survives as the empty string. -/
theorem c3_outputs_trimmed (raw : List String) :
    ∀ s ∈ cleanParties raw, pyStrip s = s ∧ ∃ p ∈ raw, p ≠ "" ∧ s = pyStrip p := by
  intro s hs
  obtain ⟨p, hp, hne, _, hsp⟩ := mem_cleanGo hs
  exact ⟨by rw [hsp]; exact pyStrip_idem p, p, hp, hne, hsp⟩

/-- Witness for the amended C3 at a concrete input. -/
theorem c3_outputs_trimmed_witness :
    pyStrip "a" = "a" ∧ ∃ p ∈ ["a"], p ≠ "" ∧ "a" = pyStrip p :=
  c3_outputs_trimmed ["a"] "a" (by decide)

/-- Claim C4: placeholder filtering removes an entry exactly when the
whole trimmed entry matches `PLACEHOLDER_RE` (full match, not substring):
a lone entry is dropped iff it is empty or a full placeholder match;
"Party A" is removed while "Party Planning Co." survives; and a
non-empty, non-placeholder entry always survives into the output (up to
casing of an earlier duplicate). -/
theorem c4_placeholder_filter_exact_match :
    (∀ p : String, cleanParties [p] =
      if p = "" then [] else if isPlaceholderMatch (pyStrip p) then [] else [pyStrip p]) ∧
    cleanParties ["Party A"] = [] ∧
    cleanParties ["Party Planning Co."] = ["Party Planning Co."] ∧
    (∀ raw p, p ∈ raw → p ≠ "" → isPlaceholderMatch (pyStrip p) = false →
      pyLower (pyStrip p) ∈ (cleanParties raw).map pyLower) := by
  refine ⟨?_, by decide, by decide, ?_⟩
  · intro p
    simp only [cleanParties, cleanGo]
    by_cases h1 : p = ""
    · subst h1
      decide
    · rw [if_neg h1]
      rw [if_neg h1]
      by_cases h2 : isPlaceholderMatch (pyStrip p) = true
      · rw [if_pos h2]
        rw [if_pos h2]
      · rw [if_neg h2]
        rw [if_neg h2]
        have hcn : ¬ (List.contains [] (pyLower (pyStrip p)) = true) :=
          fun hx => Bool.false_ne_true hx
        rw [if_neg hcn]
  · intro raw p hp h1 h2
    rcases cleanGo_key_mem hp h1 h2 [] with hc | hm
    · cases hc
    · exact hm

/-- Witness for C4 at a concrete input. -/
theorem c4_witness :
    pyLower (pyStrip " Beta LLC ") ∈
      (cleanParties ["Party A", " Beta LLC "]).map pyLower :=
  c4_placeholder_filter_exact_match.2.2.2 ["Party A", " Beta LLC "] " Beta LLC "
    (by decide) (by decide) (by decide)

/-- Claim C5: `_clean_parties` output has case-insensitively distinct
entries, is an order-preserving subsequence of the trimmed input, and each
output entry carries the casing of the first eligible (non-empty,
non-placeholder) input occurrence of its case-insensitive key. -/
theorem c5_first_occurrence_dedup (raw : List String) :
    ((cleanParties raw).map pyLower).Nodup ∧
    List.Sublist (cleanParties raw) (raw.map pyStrip) ∧
    (∀ s ∈ cleanParties raw, ∃ p,
      raw.find? (fun q => !(q == "") && !(isPlaceholderMatch (pyStrip q)) &&
        (pyLower (pyStrip q) == pyLower s)) = some p ∧ s = pyStrip p) :=
  ⟨cleanGo_keys_nodup raw [], cleanGo_sublist raw [], fun _ hs => cleanGo_first hs⟩

/-- Witness for C5 at a concrete input with a case-only duplicate. -/
theorem c5_witness :
    ∃ p, (["Acme Corp", "ACME CORP"].find? (fun q => !(q == "") &&
      !(isPlaceholderMatch (pyStrip q)) &&
      (pyLower (pyStrip q) == pyLower "Acme Corp"))) = some p ∧
      "Acme Corp" = pyStrip p :=
  (c5_first_occurrence_dedup ["Acme Corp", "ACME CORP"]).2.2 "Acme Corp" (by decide)

/-- Claim C6: `detect_parties` issues at most two remote requests: exactly
one when the first attempt errors or yields at least two normalized
entries, and exactly two (returning the second attempt's result
regardless of outcome) when the first normalized result has fewer than
two entries. -/
theorem c6_detect_parties_at_most_two_calls (parsed : Nat → Except Unit Json) :
    (detectParties parsed).2 ≤ 2 ∧
    (∀ e, ask (parsed 0) = .error e → detectParties parsed = (.error e, 1)) ∧
    (∀ l, ask (parsed 0) = .ok l →
      (if l.length < 2 then detectParties parsed = (ask (parsed 1), 2)
        else detectParties parsed = (.ok l, 1))) := by
  cases hask : ask (parsed 0) with
  | error e =>
    have hd : detectParties parsed = (.error e, 1) := by
      unfold detectParties
      rw [hask]
    refine ⟨by rw [hd]; exact Nat.le_succ 1, fun e' he' => ?_, fun l hl => ?_⟩
    · cases he'
      exact hd
    · cases hl
  | ok parties =>
    have hd : detectParties parsed =
        (if parties.length < 2 then (ask (parsed 1), 2) else (.ok parties, 1)) := by
      unfold detectParties
      rw [hask]
    by_cases hlen : parties.length < 2
    · rw [if_pos hlen] at hd
      refine ⟨by rw [hd], fun e' he' => ?_, fun l hl => ?_⟩
      · cases he'
      · cases hl
        rw [if_pos hlen]
        exact hd
    · rw [if_neg hlen] at hd
      refine ⟨by rw [hd]; exact Nat.le_succ 1, fun e' he' => ?_, fun l hl => ?_⟩
      · cases he'
      · cases hl
        rw [if_neg hlen]
        exact hd

/-- Witness for C6: a stub that always yields a parseable but
insufficient party list is called exactly twice. -/
theorem c6_witness :
    detectParties (fun _ => .ok (.obj [("parties", Json.arr [])])) = (.ok [], 2) := by
  have h := (c6_detect_parties_at_most_two_calls
    (fun _ => .ok (.obj [("parties", Json.arr [])]))).2.2 [] (by decide)
  rw [if_pos (by decide)] at h
  exact h.trans (by decide)

/-- Claim C7: `load_text` always returns at most `MAX_CHARS` characters,
and returns the extracted text unchanged whenever it is within the
bound. -/
theorem c7_load_text_truncation_bound (pdfE docxE : List Nat → String) (u : Upload) :
    (load_text pdfE docxE u).length ≤ MAX_CHARS ∧
    ((extractedText pdfE docxE u).length ≤ MAX_CHARS →
      load_text pdfE docxE u = extractedText pdfE docxE u) := by
  constructor
  · show ((extractedText pdfE docxE u).data.take MAX_CHARS).length ≤ MAX_CHARS
    exact List.length_take_le _ _
  · intro hle
    have hle' : (extractedText pdfE docxE u).data.length ≤ MAX_CHARS := hle
    show String.mk ((extractedText pdfE docxE u).data.take MAX_CHARS) =
      extractedText pdfE docxE u
    rw [List.take_of_length_le hle']

/-- Witness for C7 at a concrete upload. -/
theorem c7_witness :
    (load_text (fun _ => "") (fun _ => "") ⟨"a.txt", [65]⟩).length ≤ MAX_CHARS ∧
    load_text (fun _ => "") (fun _ => "") ⟨"a.txt", [65]⟩ =
      extractedText (fun _ => "") (fun _ => "") ⟨"a.txt", [65]⟩ :=
  ⟨(c7_load_text_truncation_bound (fun _ => "") (fun _ => "") ⟨"a.txt", [65]⟩).1,
   (c7_load_text_truncation_bound (fun _ => "") (fun _ => "") ⟨"a.txt", [65]⟩).2
     (by decide)⟩

/-- Claim C8, counterexample: the manual-entry path stores the parsed list
verbatim once it has two entries, so a session party list can contain a
placeholder and case-insensitive duplicates, violating the PartyList
invariant. -/
theorem c8_counterexample_manual_path :
    manualEntryUpdate "Party A, Party A" [] = ["Party A", "Party A"] ∧
    isPlaceholderMatch "Party A" = true ∧
    ¬ ((["Party A", "Party A"].map pyLower).Nodup) := by decide

/-- Claim C8, amended: the PartyList invariant (no placeholder elements,
case-insensitively distinct) holds on the automatic-detection path, which
stores `_clean_parties` output; on the manual-entry path the stored
entries are only guaranteed non-empty and trimmed — placeholders and
duplicates are not filtered there. -/
theorem c8_invariant_detection_path_only :
    (∀ raw, (∀ s ∈ cleanParties raw, isPlaceholderMatch s = false) ∧
      ((cleanParties raw).map pyLower).Nodup) ∧
    (∀ manual s, s ∈ manualParse manual → s ≠ "" ∧ pyStrip s = s) := by
  constructor
  · intro raw
    refine ⟨fun s hs => ?_, cleanGo_keys_nodup raw []⟩
    obtain ⟨p, _, _, hpl, hsp⟩ := mem_cleanGo hs
    rw [hsp]
    exact hpl
  · intro manual s hs
    unfold manualParse at hs
    rw [List.mem_filter] at hs
    obtain ⟨hmem, hne⟩ := hs
    obtain ⟨q, _, hq⟩ := List.mem_map.mp hmem
    exact ⟨of_decide_eq_true hne, by rw [← hq]; exact pyStrip_idem q⟩

/-- Witness for the amended C8 at a concrete manual entry. -/
theorem c8_witness : "Company A" ≠ "" ∧ pyStrip "Company A" = "Company A" :=
  c8_invariant_detection_path_only.2 "Company A, Company B" "Company A" (by decide)

/-- Claim C9: `analyze_for_party` makes exactly one remote call and
returns the `chat` wrapper's output unmodified, with no retry and no
validation of the response's sections (the result is the stripped remote
content whatever it is). -/
theorem c9_analyze_single_call_no_validation (api : String → String)
    (party text : String) :
    analyze_for_party api party text =
      (pyStrip (api (analysisPrompt party text)), 1) ∧
    (analyze_for_party api party text).1 = chat api (analysisPrompt party text) :=
  ⟨rfl, rfl⟩

/-- Claim C10: for uploads whose lowercased name ends in neither ".pdf"
nor ".docx", `load_text` is the truncation of the total
`errors="ignore"` UTF-8 decoding of the raw bytes; invalid bytes are
silently dropped and no decoding error is possible. -/
theorem c10_load_text_utf8_ignore_total :
    (∀ (pdfE docxE : List Nat → String) (u : Upload),
      pyEndsWith (pyLower u.name) ".pdf" = false →
      pyEndsWith (pyLower u.name) ".docx" = false →
      load_text pdfE docxE u = ⟨(utf8DecodeIgnore u.data).take MAX_CHARS⟩) ∧
    utf8DecodeIgnore [255, 65] = ['A'] ∧
    utf8DecodeIgnore [104, 105] = ['h', 'i'] := by
  refine ⟨?_, by decide, by decide⟩
  intro pdfE docxE u h1 h2
  unfold load_text extractedText
  rw [if_neg (by rw [h1]; exact Bool.false_ne_true),
    if_neg (by rw [h2]; exact Bool.false_ne_true)]

/-- Witness for C10 at a concrete byte list with an invalid byte. -/
theorem c10_witness :
    load_text (fun _ => "") (fun _ => "") ⟨"notes.txt", [255, 65]⟩ =
      ⟨(utf8DecodeIgnore [255, 65]).take MAX_CHARS⟩ :=
  c10_load_text_utf8_ignore_total.1 (fun _ => "") (fun _ => "")
    ⟨"notes.txt", [255, 65]⟩ (by decide) (by decide)

end LegalDocAnalyzer
